import Mathlib

/-!
Verification of the OpenClaw Kanban task server (src/server.js) against its
natural-language specification.  The JavaScript application state and the
request handlers are shallowly embedded below: the in-memory `tasks` array
becomes a `List Task`, each Express handler becomes a pure function from the
current collection (plus the environment-supplied clock readings and fresh
ids) to an `OpOut` record carrying the new collection, the number of
`saveTasks` calls, the broadcast events, and the HTTP response.
-/

namespace Kanban

/-- JavaScript values as they occur in request bodies and stored tasks.
JavaScript numbers are modelled as integers: every claim exercises only
integral values, and no handler performs non-integral arithmetic. -/
inductive JVal where
  | str (s : String)
  | num (n : Int)
  | jbool (b : Bool)
  | null
  | arr (xs : List JVal)

/-- Truthiness of a JavaScript value (`if (v)`): undefined, null, false,
0 and the empty string are falsy; every array (including `[]`) is truthy. -/
def jsTruthy : JVal → Bool
  | .str s => s ≠ ""
  | .num n => n ≠ 0
  | .jbool b => b
  | .null => false
  | .arr _ => true

/-- Truthiness of a possibly-absent value (`undefined` is falsy). -/
def jsTruthyOpt : Option JVal → Bool
  | none => false
  | some v => jsTruthy v

/-- JavaScript `x || d`: the value itself when truthy, otherwise `d`. -/
def jsOrD (o : Option JVal) (d : JVal) : JVal :=
  match o with
  | none => d
  | some v => if jsTruthy v then v else d

/-- Strict equality `v === s` between a JavaScript value and a string
literal: true exactly when `v` is that string. -/
def jvalEqStr (v : JVal) (s : String) : Bool :=
  match v with
  | .str t => t == s
  | _ => false

/-- Membership test `list.includes(v)` for a list of string constants:
`includes` uses strict equality, so only an equal string matches. -/
def jsIncludes (l : List String) (v : JVal) : Bool :=
  match v with
  | .str s => l.contains s
  | _ => false

/-- True exactly on string values (`typeof v === 'string'`). -/
def isStrVal : JVal → Bool
  | .str _ => true
  | _ => false

/-- ASCII whitespace trimmed by `String.prototype.trim` (the further
Unicode space characters it also strips do not occur in the claims). -/
def jsWs (c : Char) : Bool := c == ' ' || c == '\t' || c == '\n' || c == '\r'

/-- JavaScript `s.trim()`. -/
def jsTrim (s : String) : String :=
  ⟨((s.data.dropWhile jsWs).reverse.dropWhile jsWs).reverse⟩

/-- Lower-casing of one character; `toLowerCase` beyond ASCII is not
exercised by any claim. -/
def lowerChar (c : Char) : Char :=
  if 'A' ≤ c ∧ c ≤ 'Z' then Char.ofNat (c.toNat + 32) else c

/-- JavaScript `s.toLowerCase()`. -/
def jsToLower (s : String) : String := ⟨s.data.map lowerChar⟩

/-- Whether `pat` is a prefix of `s`, on character lists. -/
def isPrefixList : List Char → List Char → Bool
  | [], _ => true
  | _ :: _, [] => false
  | p :: ps, c :: cs => p == c && isPrefixList ps cs

/-- Whether `pat` occurs in the list, at any position. -/
def containsList (pat : List Char) : List Char → Bool
  | [] => isPrefixList pat []
  | c :: rest => isPrefixList pat (c :: rest) || containsList pat rest

/-- Substring test `s.includes(pat)`. -/
def containsSub (s pat : String) : Bool := containsList pat.data s.data

/-- A request body (`req.body`): a JavaScript object, split into the fields
the server ever reads by name plus the remaining keys (`extra`), which only
the PATCH handler's object spread can propagate.  `none` is `undefined`. -/
structure JObj where
  title : Option JVal := none
  description : Option JVal := none
  status : Option JVal := none
  priority : Option JVal := none
  tags : Option JVal := none
  assignee : Option JVal := none
  order : Option JVal := none
  idF : Option JVal := none
  created_atF : Option JVal := none
  updated_atF : Option JVal := none
  extra : List (String × JVal) := []

/-- A stored task.  `id` and the two timestamps are opaque strings produced
by the environment (uuidv4 and `new Date().toISOString()`); the remaining
fields hold whatever JavaScript values the handlers stored.  `extra` holds
keys outside the fixed schema, which the PATCH handler's spread can add. -/
structure Task where
  id : String
  title : JVal
  description : JVal
  status : JVal
  priority : JVal
  tags : JVal
  assignee : JVal
  created_at : String
  updated_at : String
  order : JVal
  extra : List (String × JVal) := []

/-- The status enumeration, `VALID_STATUSES` in the source. -/
def VALID_STATUSES : List String := ["backlog", "todo", "in_progress", "review", "done"]

/-- The priority enumeration, `VALID_PRIORITIES` in the source. -/
def VALID_PRIORITIES : List String := ["low", "medium", "high", "critical"]

/-- Message text of the status-enumeration violation. -/
def statusMsg : String := "Status must be one of: " ++ String.intercalate ", " VALID_STATUSES

/-- Message text of the priority-enumeration violation. -/
def priorityMsg : String := "Priority must be one of: " ++ String.intercalate ", " VALID_PRIORITIES

/-- The validator `validateTaskInput(data, isUpdate)`.  It pushes messages
onto `errors` in source order; the two member accesses that JavaScript can
only perform on the right type — `data.title.trim()` and
`data.tags.every(...)` — throw a `TypeError` when `title` is present but not
a string, respectively when `tags` is present but not an array.  A thrown
error is modelled as `Except.error ()` (the route's `catch` turns it into a
500 response). -/
def validateTaskInput (data : JObj) (isUpdate : Bool) : Except Unit (List String) := do
  let errors : List String := []
  let errors := if ¬ isUpdate ∧ ¬ jsTruthyOpt data.title then errors ++ ["Title is required"] else errors
  let errors :=
    match data.title with
    | some v => if isStrVal v then errors else errors ++ ["Title must be a string"]
    | none => errors
  let errors ←
    match data.title with
    | none => pure errors
    | some (JVal.str s) => pure (if (jsTrim s).length = 0 then errors ++ ["Title cannot be empty"] else errors)
    | some _ => throw ()
  let errors :=
    match data.status with
    | none => errors
    | some v => if jsIncludes VALID_STATUSES v then errors else errors ++ [statusMsg]
  let errors :=
    match data.priority with
    | none => errors
    | some v => if jsIncludes VALID_PRIORITIES v then errors else errors ++ [priorityMsg]
  let errors :=
    match data.tags with
    | none => errors
    | some (JVal.arr _) => errors
    | some _ => errors ++ ["Tags must be an array"]
  let errors ←
    match data.tags with
    | none => pure errors
    | some (JVal.arr xs) => pure (if xs.all isStrVal then errors else errors ++ ["All tags must be strings"])
    | some _ => throw ()
  pure errors

/-- Events broadcast to WebSocket subscribers. -/
inductive Event where
  | task_created (t : Task) (timestamp : String)
  | task_updated (t : Task) (timestamp : String)
  | task_moved (t : Task) (timestamp : String)
  | task_deleted (t : Task) (timestamp : String)

/-- Stats payload: `byStatus` and `byPriority` are JavaScript objects whose
values are counters (`none` models the `NaN` that `byStatus[unknownKey]++`
would produce). -/
structure StatsBody where
  total : Nat
  byStatus : List (String × Option Nat)
  byPriority : List (String × Option Nat)
  recentlyCompleted : Nat

/-- HTTP responses produced by the handlers modelled here. -/
inductive Resp where
  | okTask (t : Task)
  | okList (ts : List Task)
  | okBulk (ts : List Task) (errors : List String)
  | okDeleted (count : Nat)
  | okStats (s : StatsBody)
  | noContent
  | badRequest (msg : String)
  | notFound (msg : String)
  | serverError

/-- Outcome of one handler invocation: the task collection afterwards, how
many times `saveTasks` ran, the events broadcast, and the response. -/
structure OpOut where
  tasks : List Task
  saves : Nat
  events : List Event
  resp : Resp

/-- Task construction shared verbatim by POST /api/tasks and the bulk loop
(the two handlers contain the same object literal).  `tid` and `tnow` are
the uuid and clock reading the environment supplies for this element.
Building the object evaluates `req.body.title.trim()`, which throws on a
non-string title (unreachable after a successful validation). -/
def buildNewTask (b : JObj) (tid tnow : String) : Except Unit Task :=
  match b.title with
  | some (JVal.str s) =>
    .ok { id := tid
          title := JVal.str (jsTrim s)
          description := jsOrD b.description (JVal.str "")
          status := jsOrD b.status (JVal.str "backlog")
          priority := jsOrD b.priority (JVal.str "medium")
          tags := jsOrD b.tags (JVal.arr [])
          assignee := jsOrD b.assignee (JVal.str "")
          created_at := tnow
          updated_at := tnow
          order := b.order.getD (JVal.num 0)
          extra := [] }
  | _ => .error ()

/-- Handler of POST /api/tasks. -/
def createTask (st : List Task) (b : JObj) (newId now : String) : OpOut :=
  match validateTaskInput b false with
  | .error _ => ⟨st, 0, [], .serverError⟩
  | .ok errs =>
    if errs.length > 0 then ⟨st, 0, [], .badRequest (String.intercalate "; " errs)⟩
    else
      match buildNewTask b newId now with
      | .error _ => ⟨st, 0, [], .serverError⟩
      | .ok t => ⟨st ++ [t], 1, [.task_created t now], .okTask t⟩

/-- Merge of the object spread `\x7b ...task, ...body, id, created_at,
updated_at \x7d` on the keys outside the fixed schema: keys of `a` keep
their place (updated from `b` where supplied), keys only in `b` are
appended in order. -/
def jsMergeExtra (a b : List (String × JVal)) : List (String × JVal) :=
  a.map (fun p => (p.1, (b.lookup p.1).getD p.2)) ++ b.filter (fun p => (a.lookup p.1).isNone)

/-- The spread `\x7b ...tasks[taskIndex], ...req.body, id: old, created_at:
old, updated_at: now \x7d` of the PATCH handler: every supplied body key
overrides the stored one, except that the trailing literal keys pin `id`
and `created_at` to the stored values and `updated_at` to `now`. -/
def spreadMerge (old : Task) (b : JObj) (now : String) : Task :=
  { id := old.id
    title := b.title.getD old.title
    description := b.description.getD old.description
    status := b.status.getD old.status
    priority := b.priority.getD old.priority
    tags := b.tags.getD old.tags
    assignee := b.assignee.getD old.assignee
    created_at := old.created_at
    updated_at := now
    order := b.order.getD old.order
    extra := jsMergeExtra old.extra b.extra }

/-- Handler of PATCH /api/tasks/:id.  After the spread, a supplied title is
re-trimmed (`req.body.title.trim()`, which would throw on a non-string
title — unreachable, since validation already threw in that case). -/
def updateTask (st : List Task) (pid : String) (b : JObj) (now : String) : OpOut :=
  match st.findIdx? (fun t => t.id == pid) with
  | none => ⟨st, 0, [], .notFound "Task not found"⟩
  | some i =>
    match validateTaskInput b true with
    | .error _ => ⟨st, 0, [], .serverError⟩
    | .ok errs =>
      if errs.length > 0 then ⟨st, 0, [], .badRequest (String.intercalate "; " errs)⟩
      else
        match st[i]? with
        | none => ⟨st, 0, [], .serverError⟩
        | some old =>
          let base := spreadMerge old b now
          match b.title with
          | none => ⟨st.set i base, 1, [.task_updated base now], .okTask base⟩
          | some (JVal.str s) =>
            let u := { base with title := JVal.str (jsTrim s) }
            ⟨st.set i u, 1, [.task_updated u now], .okTask u⟩
          | some _ => ⟨st, 0, [], .serverError⟩

/-- Handler of POST /api/tasks/:id/move. -/
def moveTask (st : List Task) (pid : String) (b : JObj) (now : String) : OpOut :=
  match st.findIdx? (fun t => t.id == pid) with
  | none => ⟨st, 0, [], .notFound "Task not found"⟩
  | some i =>
    if ¬ jsTruthyOpt b.status then ⟨st, 0, [], .badRequest "Status is required"⟩
    else if ¬ jsIncludes VALID_STATUSES (b.status.getD JVal.null) then
      ⟨st, 0, [], .badRequest statusMsg⟩
    else
      match st[i]? with
      | none => ⟨st, 0, [], .serverError⟩
      | some old =>
        let u := { old with
                   status := b.status.getD JVal.null
                   order := b.order.getD old.order
                   updated_at := now }
        ⟨st.set i u, 1, [.task_moved u now], .okTask u⟩

/-- Handler of GET /api/tasks/:id. -/
def getSingleTask (st : List Task) (pid : String) : OpOut :=
  match st.find? (fun t => t.id == pid) with
  | none => ⟨st, 0, [], .notFound "Task not found"⟩
  | some t => ⟨st, 0, [], .okTask t⟩

/-- Loop body of POST /api/tasks/bulk over the element list, starting at
element index `i`: returns the created tasks (already pushed onto the
global `tasks` array as they are built), the index-tagged error messages,
and whether an element's validation threw (aborting the request). -/
def bulkLoop (newIds nows : Nat → String) : Nat → List JObj → List Task × List String × Bool
  | _, [] => ([], [], false)
  | i, b :: rest =>
    match validateTaskInput b false with
    | .error _ => ([], [], true)
    | .ok verrs =>
      if verrs.length > 0 then
        let r := bulkLoop newIds nows (i + 1) rest
        (r.1, ("Task " ++ toString i ++ ": " ++ String.intercalate "; " verrs) :: r.2.1, r.2.2)
      else
        match buildNewTask b (newIds i) (nows i) with
        | .error _ => ([], [], true)
        | .ok t =>
          let r := bulkLoop newIds nows (i + 1) rest
          (t :: r.1, r.2.1, r.2.2)

/-- Handler of POST /api/tasks/bulk (given that the transport guard already
accepted a `tasks` array).  Tasks created before a thrown validation stay
in the in-memory collection; `saveTasks` runs only when the loop finishes
and the all-failed branch is not taken. -/
def bulkCreateTasks (st : List Task) (bodies : List JObj) (newIds nows : Nat → String) : OpOut :=
  let r := bulkLoop newIds nows 0 bodies
  let created := r.1
  let errs := r.2.1
  if r.2.2 then ⟨st ++ created, 0, [], .serverError⟩
  else if errs.length > 0 ∧ created.length = 0 then
    ⟨st ++ created, 0, [], .badRequest (String.intercalate "; " errs)⟩
  else
    ⟨st ++ created, 1, created.map (fun t => .task_created t t.created_at), .okBulk created errs⟩

/-- Handler of DELETE /api/tasks, the clear-done operation; `nows` supplies
the per-broadcast clock readings. -/
def clearDoneTasks (st : List Task) (qstatus : Option String) (nows : Nat → String) : OpOut :=
  if qstatus ≠ some "done" then
    ⟨st, 0, [], .badRequest "Only status=done is supported for bulk delete"⟩
  else
    let deletedTasks := st.filter (fun t => jvalEqStr t.status "done")
    let remaining := st.filter (fun t => !(jvalEqStr t.status "done"))
    ⟨remaining, 1, deletedTasks.enum.map (fun p => .task_deleted p.2 (nows p.1)),
      .okDeleted (st.length - remaining.length)⟩

/-- The four optional query parameters of GET /api/tasks; a parameter is a
string when present in the query (`none` when absent). -/
structure Query where
  status : Option String := none
  priority : Option String := none
  assignee : Option String := none
  search : Option String := none

/-- Truthiness gate `if (req.query.x)` on a query parameter: present and
non-empty. -/
def qActive : Option String → Bool
  | none => false
  | some s => s ≠ ""

/-- Search predicate of GET /api/tasks: lowered title, then (short-circuit
`||`) lowered description; `toLowerCase()` on a non-string field throws. -/
def searchPred (ql : String) (t : Task) : Except Unit Bool := do
  let tb ←
    match t.title with
    | JVal.str s => pure (containsSub (jsToLower s) ql)
    | _ => throw ()
  if tb then pure true
  else
    match t.description with
    | JVal.str s => pure (containsSub (jsToLower s) ql)
    | _ => throw ()

/-- Left-to-right `Array.prototype.filter` whose predicate may throw. -/
def filterE (p : Task → Except Unit Bool) : List Task → Except Unit (List Task)
  | [] => pure []
  | x :: xs => do
    let b ← p x
    let r ← filterE p xs
    pure (if b then x :: r else r)

/-- One exact-match filter stage (`===` against the query string), applied
only when the parameter is truthy. -/
def applyExact (o : Option String) (proj : Task → JVal) (l : List Task) : List Task :=
  match o with
  | none => l
  | some s => if s ≠ "" then l.filter (fun t => jvalEqStr (proj t) s) else l

/-- The `statusOrder` ranking object of the list handler. -/
def statusOrder : List (String × Int) :=
  [("backlog", 0), ("todo", 1), ("in_progress", 2), ("review", 3), ("done", 4)]

mutual

/-- String an object key coerces to (ToPropertyKey / Array join): arrays
join their elements with commas, `null` joining as the empty string. -/
def jsStringOf : JVal → String
  | .str s => s
  | .num n => toString n
  | .jbool b => if b then "true" else "false"
  | .null => "null"
  | .arr xs => String.intercalate "," (jsStringList xs)

/-- Rendering of the elements of an array for `Array.prototype.join`. -/
def jsStringList : List JVal → List String
  | [] => []
  | JVal.null :: rest => "" :: jsStringList rest
  | v :: rest => jsStringOf v :: jsStringList rest

end

/-- The property read `statusOrder[a.status]`: `none` is `undefined`. -/
def statusRank (v : JVal) : Option Int :=
  (statusOrder.lookup (jsStringOf v))

/-- JavaScript ToNumber on the value forms the comparator can meet; `none`
is NaN.  Numeric-string and array coercion is not modelled — every theorem
about the sort restricts `order` fields to numbers. -/
def jsToNumber : JVal → Option Int
  | .num n => some n
  | .jbool b => some (if b then 1 else 0)
  | .null => some 0
  | .str _ => none
  | .arr _ => none

/-- JavaScript subtraction `a - b` of two values; NaN (`none`) on
unmodelled coercions. -/
def jsSubNum (a b : JVal) : Option Int := do
  let x ← jsToNumber a
  let y ← jsToNumber b
  pure (x - y)

/-- The sort comparator of GET /api/tasks: status-rank difference when it
is non-zero (a NaN difference — some rank `undefined` — is also returned,
and SortCompare then treats the NaN result as equality), otherwise the
`order` difference. -/
def sortCompare (a b : Task) : Int :=
  let d : Option Int := do
    let ra ← statusRank a.status
    let rb ← statusRank b.status
    pure (ra - rb)
  match d with
  | none => 0
  | some dd => if dd ≠ 0 then dd else (jsSubNum a.order b.order).getD 0

/-- Stable insertion used to model `Array.prototype.sort`: an element goes
in front of the first element it does not compare after. -/
def jsInsert (a : Task) : List Task → List Task
  | [] => [a]
  | b :: rest => if sortCompare a b ≤ 0 then a :: b :: rest else b :: jsInsert a rest

/-- Array.prototype.sort with a comparator: for a consistent comparator
ECMAScript specifies the stable sort by that comparator, modelled here as
a stable insertion sort. -/
def jsSort (l : List Task) : List Task := l.foldr jsInsert []

/-- Filter-and-sort pipeline of GET /api/tasks (on the copied array). -/
def listTasks (st : List Task) (q : Query) : Except Unit (List Task) := do
  let f := st
  let f := applyExact q.status (fun t => t.status) f
  let f := applyExact q.priority (fun t => t.priority) f
  let f := applyExact q.assignee (fun t => t.assignee) f
  let f ←
    match q.search with
    | none => pure f
    | some s => if s ≠ "" then filterE (searchPred (jsToLower s)) f else pure f
  pure (jsSort f)

/-- Handler of GET /api/tasks. -/
def getTasksHandler (st : List Task) (q : Query) : OpOut :=
  match listTasks st q with
  | .error _ => ⟨st, 0, [], .serverError⟩
  | .ok l => ⟨st, 0, [], .okList l⟩

/-- Replacement of the value stored under key `k` (object property write on
an existing key). -/
def assocSet (m : List (String × Option Nat)) (k : String) (v : Option Nat) :
    List (String × Option Nat) :=
  m.map (fun p => if p.1 = k then (p.1, v) else p)

/-- The increment `obj[k]++` of the stats handler: an existing counter is
incremented (`none`, NaN, stays NaN); an absent key becomes NaN. -/
def bump (m : List (String × Option Nat)) (k : String) : List (String × Option Nat) :=
  match m.lookup k with
  | some v => assocSet m k (v.map (· + 1))
  | none => m ++ [(k, none)]

/-- Code-unit comparison `a <= b` of JavaScript strings. -/
def jsLeList : List Char → List Char → Bool
  | [], _ => true
  | _ :: _, [] => false
  | a :: as, b :: bs =>
    if a.val < b.val then true else if b.val < a.val then false else jsLeList as bs

/-- JavaScript string comparison `a <= b`. -/
def jsStrLe (a b : String) : Bool := jsLeList a.data b.data

/-- Accumulator of the `tasks.forEach` loop in GET /api/stats. -/
structure StatsAcc where
  byStatus : List (String × Option Nat)
  byPriority : List (String × Option Nat)
  recent : Nat

/-- One iteration of the stats loop: bump the status and priority buckets
and count `status === 'done' && updated_at >= oneDayAgo`. -/
def statsStep (oneDayAgo : String) (acc : StatsAcc) (t : Task) : StatsAcc :=
  { byStatus := bump acc.byStatus (jsStringOf t.status)
    byPriority := bump acc.byPriority (jsStringOf t.priority)
    recent := if jvalEqStr t.status "done" && jsStrLe oneDayAgo t.updated_at
              then acc.recent + 1 else acc.recent }

/-- The zero-filled status buckets the stats handler starts from. -/
def byStatus0 : List (String × Option Nat) :=
  [("backlog", some 0), ("todo", some 0), ("in_progress", some 0), ("review", some 0),
   ("done", some 0)]

/-- The zero-filled priority buckets the stats handler starts from. -/
def byPriority0 : List (String × Option Nat) :=
  [("low", some 0), ("medium", some 0), ("high", some 0), ("critical", some 0)]

/-- Handler of GET /api/stats; `oneDayAgo` is the ISO rendering of the call
moment minus 24 hours, supplied by the environment clock. -/
def getStats (st : List Task) (oneDayAgo : String) : OpOut :=
  let acc := st.foldl (statsStep oneDayAgo) ⟨byStatus0, byPriority0, 0⟩
  ⟨st, 0, [], .okStats ⟨st.length, acc.byStatus, acc.byPriority, acc.recent⟩⟩

/-- The three single-task mutation requests, for statements ranging over
create, update and move uniformly. -/
inductive Req where
  | create (b : JObj)
  | update (pid : String) (b : JObj)
  | move (pid : String) (b : JObj)

/-- Dispatch of a mutation request to its handler. -/
def applyReq (st : List Task) (r : Req) (newId now : String) : OpOut :=
  match r with
  | .create b => createTask st b newId now
  | .update pid b => updateTask st pid b now
  | .move pid b => moveTask st pid b now

/-- Responses that reject the request with a validation (400) or not-found
(404) error. -/
def isRejection : Resp → Bool
  | .badRequest _ => true
  | .notFound _ => true
  | _ => false

/-- The task a successful PATCH stores: the spread merge, with a supplied
title re-trimmed. -/
def updatedTask (old : Task) (b : JObj) (now : String) : Task :=
  match b.title with
  | some (JVal.str s) => { spreadMerge old b now with title := JVal.str (jsTrim s) }
  | _ => spreadMerge old b now

/-- Characterization of a successful move: the task found at the id got the
requested status, the supplied-or-prior order and the fresh timestamp, and
exactly it was stored, saved once and broadcast once. -/
theorem moveTask_ok (st : List Task) (pid : String) (b : JObj) (now : String) (u : Task)
    (h : (moveTask st pid b now).resp = .okTask u) :
    ∃ i old, st.findIdx? (fun t => t.id == pid) = some i ∧ st[i]? = some old ∧
      u = { old with
            status := b.status.getD JVal.null
            order := b.order.getD old.order
            updated_at := now } ∧
      moveTask st pid b now = ⟨st.set i u, 1, [.task_moved u now], .okTask u⟩ := by
  obtain ⟨out, hdef⟩ : ∃ o, moveTask st pid b now = o := ⟨_, rfl⟩
  rw [hdef] at h ⊢
  unfold moveTask at hdef
  repeat' split at hdef
  all_goals rw [← hdef] at h
  all_goals first
    | exact Resp.noConfusion h
    | (simp only [Resp.okTask.injEq] at h
       subst h
       exact ⟨_, _, by assumption, by assumption, rfl, hdef.symm⟩)

/-- Characterization of a successful update: the task found at the id was
replaced by the spread merge (title re-trimmed), stored, saved once and
broadcast once. -/
theorem updateTask_ok (st : List Task) (pid : String) (b : JObj) (now : String) (u : Task)
    (h : (updateTask st pid b now).resp = .okTask u) :
    ∃ i old, st.findIdx? (fun t => t.id == pid) = some i ∧ st[i]? = some old ∧
      u = updatedTask old b now ∧
      updateTask st pid b now = ⟨st.set i u, 1, [.task_updated u now], .okTask u⟩ := by
  obtain ⟨out, hdef⟩ : ∃ o, updateTask st pid b now = o := ⟨_, rfl⟩
  rw [hdef] at h ⊢
  unfold updateTask at hdef
  repeat' split at hdef
  all_goals rw [← hdef] at h
  all_goals first
    | exact Resp.noConfusion h
    | (simp only [Resp.okTask.injEq] at h
       subst h
       refine ⟨_, _, by assumption, by assumption, ?_, hdef.symm⟩
       unfold updatedTask
       split <;> simp_all)

/-- Characterization of a successful create: validation passed cleanly, the
built task was appended, saved once and broadcast once. -/
theorem createTask_ok (st : List Task) (b : JObj) (newId now : String) (t : Task)
    (h : (createTask st b newId now).resp = .okTask t) :
    validateTaskInput b false = .ok [] ∧ buildNewTask b newId now = .ok t ∧
      createTask st b newId now = ⟨st ++ [t], 1, [.task_created t now], .okTask t⟩ := by
  obtain ⟨out, hdef⟩ : ∃ o, createTask st b newId now = o := ⟨_, rfl⟩
  rw [hdef] at h ⊢
  unfold createTask at hdef
  repeat' split at hdef
  all_goals rw [← hdef] at h
  all_goals first
    | exact Resp.noConfusion h
    | (simp only [Resp.okTask.injEq] at h
       subst h
       refine ⟨?_, ?_, hdef.symm⟩ <;> simp_all [List.length_eq_zero])

/-- C2: the spec promises that the validator always returns the complete
violation list, never aborting; but when `title` is present and not a
string, or `tags` is present and not an array, `validateTaskInput` throws
a TypeError (at `data.title.trim()` respectively `data.tags.every`) and
produces no list at all — the route surfaces a 500 instead.  The pushed
message texts Title must be a string and Tags must be an array show the
listing behaviour was the intent, so this is a slip in the code. -/
theorem validateTaskInput_throws_instead_of_listing :
    validateTaskInput { title := some (JVal.num 42) } false = Except.error () ∧
    validateTaskInput { title := some (JVal.str "x"), tags := some (JVal.num 5) } false
      = Except.error () :=
  ⟨rfl, rfl⟩

/-- C1: a create, update or move request that is rejected with a validation
(400) or not-found (404) error leaves the task collection unchanged,
persists nothing and broadcasts no event. -/
theorem rejected_request_has_no_side_effects (st : List Task) (r : Req) (newId now : String)
    (h : isRejection (applyReq st r newId now).resp = true) :
    (applyReq st r newId now).tasks = st ∧ (applyReq st r newId now).saves = 0 ∧
    (applyReq st r newId now).events = [] := by
  obtain ⟨out, hdef⟩ : ∃ o, applyReq st r newId now = o := ⟨_, rfl⟩
  rw [hdef] at h ⊢
  rcases r with b | ⟨pid, b⟩ | ⟨pid, b⟩ <;>
    simp only [applyReq, createTask, updateTask, moveTask] at hdef <;>
    (repeat' split at hdef) <;>
    (first
      | (rw [← hdef]; exact ⟨rfl, rfl, rfl⟩)
      | (rw [← hdef] at h; simp [isRejection] at h))

/-- Witness for C1: creating with an empty body is rejected (title is
required) and has no side effects. -/
theorem rejected_request_has_no_side_effects_witness :
    isRejection (applyReq [] (Req.create {}) "id0" "t0").resp = true ∧
    ((applyReq [] (Req.create {}) "id0" "t0").tasks = [] ∧
     (applyReq [] (Req.create {}) "id0" "t0").saves = 0 ∧
     (applyReq [] (Req.create {}) "id0" "t0").events = []) :=
  ⟨rfl, rejected_request_has_no_side_effects [] (Req.create {}) "id0" "t0" rfl⟩


/-- Value found under a key after the left side of the extra-field merge
(the stored keys, each updated from the body where the body supplies the
key). -/
theorem lookup_mergeLeft (b : List (String × JVal)) (k : String) :
    ∀ a : List (String × JVal),
      (a.map (fun p => (p.1, (b.lookup p.1).getD p.2))).lookup k
        = (a.lookup k).map (fun v => (b.lookup k).getD v) := by
  intro a
  induction a with
  | nil => simp
  | cons p rest ih =>
    rcases p with ⟨pk, pv⟩
    by_cases hk : pk = k
    · subst hk
      simp [List.lookup]
    · have hkk : (k == pk) = false := by simp [Ne.symm hk]
      simp [List.lookup, hkk, ih]

/-- Looking up a key in a filtered association list when the filter keeps
every entry carrying that key. -/
theorem lookup_filter_keeps (k : String) (g : (String × JVal) → Bool) :
    ∀ b : List (String × JVal), (∀ p ∈ b, p.1 = k → g p = true) →
      (b.filter g).lookup k = b.lookup k := by
  intro b
  induction b with
  | nil => simp
  | cons p rest ih =>
    intro hg
    rcases p with ⟨pk, pv⟩
    have hrest : ∀ q ∈ rest, q.1 = k → g q = true := fun q hq => hg q (by simp [hq])
    by_cases hk : pk = k
    · rw [List.filter_cons, if_pos (hg ⟨pk, pv⟩ (by simp) hk)]
      subst hk
      simp [List.lookup]
    · have hkk : (k == pk) = false := by simp [Ne.symm hk]
      rw [List.filter_cons]
      by_cases hgp : g (pk, pv) = true
      · rw [if_pos hgp]
        simp [List.lookup, hkk, ih hrest]
      · rw [if_neg hgp]
        simp [List.lookup, hkk, ih hrest]

/-- A key the body supplies survives the spread merge of the extra fields
with the body's value. -/
theorem lookup_jsMergeExtra (a b : List (String × JVal)) (k : String) (w : JVal)
    (h : b.lookup k = some w) : (jsMergeExtra a b).lookup k = some w := by
  unfold jsMergeExtra
  rcases hak : a.lookup k with _ | v0
  · rw [List.lookup_append, lookup_mergeLeft b k a, hak]
    have hkeep : (List.filter (fun p => (a.lookup p.1).isNone) b).lookup k = b.lookup k :=
      lookup_filter_keeps k _ b (fun p hp hpk => by rw [hpk, hak]; rfl)
    simp [hkeep, h]
  · rw [List.lookup_append, lookup_mergeLeft b k a, hak, h]
    rfl

/-- Sample stored task used by the concrete witnesses below. -/
def exTask : Task :=
  { id := "a1"
    title := JVal.str "A"
    description := JVal.str ""
    status := JVal.str "todo"
    priority := JVal.str "medium"
    tags := JVal.arr []
    assignee := JVal.str ""
    created_at := "2026-01-01T00:00:00.000Z"
    updated_at := "2026-01-01T00:00:00.000Z"
    order := JVal.num 7
    extra := [] }

/-- C4: a successful update or move keeps the stored task's `id` and
`created_at` — even when the body supplies id, created_at or updated_at
values — and stamps `updated_at` with the mutation time; the read handlers
(list, single get, stats) leave the collection, hence every stored
`updated_at`, untouched. -/
theorem mutation_preserves_id_and_created_at (st : List Task) (pid : String) (b : JObj)
    (now : String) (u : Task) :
    (((updateTask st pid b now).resp = .okTask u) →
      ∃ i old, st[i]? = some old ∧ u.id = old.id ∧ u.created_at = old.created_at ∧
        u.updated_at = now ∧ (updateTask st pid b now).tasks = st.set i u) ∧
    (((moveTask st pid b now).resp = .okTask u) →
      ∃ i old, st[i]? = some old ∧ u.id = old.id ∧ u.created_at = old.created_at ∧
        u.updated_at = now ∧ (moveTask st pid b now).tasks = st.set i u) ∧
    (∀ q : Query, (getTasksHandler st q).tasks = st) ∧
    (getSingleTask st pid).tasks = st ∧
    (∀ d : String, (getStats st d).tasks = st) := by
  refine ⟨?_, ?_, ?_, ?_, ?_⟩
  · intro h
    obtain ⟨i, old, hfind, hget, hu, heq⟩ := updateTask_ok st pid b now u h
    subst hu
    refine ⟨i, old, hget, ?_, ?_, ?_, by rw [heq]⟩ <;>
      (unfold updatedTask spreadMerge; split <;> rfl)
  · intro h
    obtain ⟨i, old, hfind, hget, hu, heq⟩ := moveTask_ok st pid b now u h
    subst hu
    exact ⟨i, old, hget, rfl, rfl, rfl, by rw [heq]⟩
  · intro q
    unfold getTasksHandler
    split <;> rfl
  · unfold getSingleTask
    split <;> rfl
  · intro d
    rfl

/-- Body of the C4 witness update: it supplies id, created_at and
updated_at values, all of which the handler must ignore. -/
def exBody4 : JObj :=
  { description := some (JVal.str "d2")
    idF := some (JVal.str "EVIL")
    created_atF := some (JVal.str "1999-01-01T00:00:00.000Z")
    updated_atF := some (JVal.str "1999-01-01T00:00:00.000Z") }

/-- Task stored by the C4 witness update. -/
def exU4 : Task := { exTask with description := JVal.str "d2", updated_at := "T1" }

/-- Witness for C4 at a concrete successful update whose body supplies id
and created_at values. -/
theorem mutation_preserves_id_and_created_at_witness :
    (updateTask [exTask] "a1" exBody4 "T1").resp = Resp.okTask exU4 ∧
    (∃ i old, [exTask][i]? = some old ∧ exU4.id = old.id ∧
      exU4.created_at = old.created_at ∧ exU4.updated_at = "T1" ∧
      (updateTask [exTask] "a1" exBody4 "T1").tasks = [exTask].set i exU4) :=
  ⟨rfl, (mutation_preserves_id_and_created_at [exTask] "a1" exBody4 "T1" exU4).1 rfl⟩

/-- C5: a successful move stores the prior `order` when the body omits the
field, and stores exactly the supplied value when the field is present —
including the explicit value 0. -/
theorem moveTask_order_defaulting (st : List Task) (pid : String) (b : JObj) (now : String)
    (u : Task) (h : (moveTask st pid b now).resp = .okTask u) :
    ∃ i old, st.findIdx? (fun t => t.id == pid) = some i ∧ st[i]? = some old ∧
      (b.order = none → u.order = old.order) ∧ (∀ w, b.order = some w → u.order = w) := by
  obtain ⟨i, old, hfind, hget, hu, _⟩ := moveTask_ok st pid b now u h
  subst hu
  exact ⟨i, old, hfind, hget, fun hn => by simp [hn], fun w hw => by simp [hw]⟩

/-- Move body with the order field omitted. -/
def exMoveBody : JObj := { status := some (JVal.str "done") }

/-- Move body carrying the explicit order value 0. -/
def exMoveBody0 : JObj := { status := some (JVal.str "done"), order := some (JVal.num 0) }

/-- Task stored when moving the sample task without an order field. -/
def exMoved : Task := { exTask with status := JVal.str "done", updated_at := "T2" }

/-- Task stored when moving the sample task with order 0. -/
def exMoved0 : Task :=
  { exTask with status := JVal.str "done", order := JVal.num 0, updated_at := "T2" }

/-- Witness for C5: moving the sample task (prior order 7) without an
order keeps 7; moving it with the explicit order 0 stores 0. -/
theorem moveTask_order_defaulting_witness :
    ((moveTask [exTask] "a1" exMoveBody "T2").resp = Resp.okTask exMoved ∧
      (∃ i old, [exTask].findIdx? (fun t => t.id == "a1") = some i ∧ [exTask][i]? = some old ∧
        (exMoveBody.order = none → exMoved.order = old.order) ∧
        (∀ w, exMoveBody.order = some w → exMoved.order = w))) ∧
    ((moveTask [exTask] "a1" exMoveBody0 "T2").resp = Resp.okTask exMoved0 ∧
      (∃ i old, [exTask].findIdx? (fun t => t.id == "a1") = some i ∧ [exTask][i]? = some old ∧
        (exMoveBody0.order = none → exMoved0.order = old.order) ∧
        (∀ w, exMoveBody0.order = some w → exMoved0.order = w))) :=
  ⟨⟨rfl, moveTask_order_defaulting [exTask] "a1" exMoveBody "T2" exMoved rfl⟩,
   ⟨rfl, moveTask_order_defaulting [exTask] "a1" exMoveBody0 "T2" exMoved0 rfl⟩⟩


/-- C9 (amended): a successful update merges every supplied body key onto
the stored record by object spread — including keys outside the Task
schema, with no allow-list — except that `id` and `created_at` keep the
stored values, `updated_at` is overwritten with the mutation time, and a
supplied title is stored trimmed. -/
theorem updateTask_merges_all_supplied_fields (st : List Task) (pid : String) (b : JObj)
    (now : String) (u : Task) (h : (updateTask st pid b now).resp = .okTask u) :
    ∃ i old, st[i]? = some old ∧ (updateTask st pid b now).tasks = st.set i u ∧
      u.id = old.id ∧ u.created_at = old.created_at ∧ u.updated_at = now ∧
      (∀ v, b.description = some v → u.description = v) ∧
      (∀ v, b.status = some v → u.status = v) ∧
      (∀ v, b.priority = some v → u.priority = v) ∧
      (∀ v, b.tags = some v → u.tags = v) ∧
      (∀ v, b.assignee = some v → u.assignee = v) ∧
      (∀ v, b.order = some v → u.order = v) ∧
      (∀ s, b.title = some (JVal.str s) → u.title = JVal.str (jsTrim s)) ∧
      (∀ k w, b.extra.lookup k = some w → u.extra.lookup k = some w) := by
  obtain ⟨i, old, hfind, hget, hu, heq⟩ := updateTask_ok st pid b now u h
  subst hu
  refine ⟨i, old, hget, by rw [heq], ?_, ?_, ?_, ?_, ?_, ?_, ?_, ?_, ?_, ?_, ?_⟩
  · unfold updatedTask spreadMerge; split <;> rfl
  · unfold updatedTask spreadMerge; split <;> rfl
  · unfold updatedTask spreadMerge; split <;> rfl
  · intro v hv
    unfold updatedTask spreadMerge
    split <;> simp [hv]
  · intro v hv
    unfold updatedTask spreadMerge
    split <;> simp [hv]
  · intro v hv
    unfold updatedTask spreadMerge
    split <;> simp [hv]
  · intro v hv
    unfold updatedTask spreadMerge
    split <;> simp [hv]
  · intro v hv
    unfold updatedTask spreadMerge
    split <;> simp [hv]
  · intro v hv
    unfold updatedTask spreadMerge
    split <;> simp [hv]
  · intro s hs
    unfold updatedTask
    rw [hs]
  · intro k w hw
    have hex : (updatedTask old b now).extra = jsMergeExtra old.extra b.extra := by
      unfold updatedTask spreadMerge
      split <;> rfl
    rw [hex]
    exact lookup_jsMergeExtra old.extra b.extra k w hw

/-- Update body of the C9 concrete runs: it supplies a padded title, an
updated_at value and a key outside the Task schema. -/
def exBody9 : JObj :=
  { title := some (JVal.str "  B  ")
    updated_atF := some (JVal.str "1999-01-01T00:00:00.000Z")
    extra := [("foo", JVal.num 7)] }

/-- Task stored by the C9 concrete update. -/
def exU9 : Task :=
  { exTask with
    title := JVal.str "B"
    updated_at := "T9"
    extra := [("foo", JVal.num 7)] }

/-- C9 counterexample: the update supplies updated_at and title values, yet
the stored task carries neither verbatim — updated_at is the mutation time
and the title is stored trimmed — so it is false that every supplied key
except id and created_at is copied onto the stored record. -/
theorem updateTask_merge_counterexample :
    (updateTask [exTask] "a1" exBody9 "T9").resp = Resp.okTask exU9 ∧
    exBody9.updated_atF = some (JVal.str "1999-01-01T00:00:00.000Z") ∧
    exU9.updated_at = "T9" ∧ ("T9" : String) ≠ "1999-01-01T00:00:00.000Z" ∧
    exBody9.title = some (JVal.str "  B  ") ∧ exU9.title = JVal.str "B" ∧
    JVal.str "B" ≠ JVal.str "  B  " :=
  ⟨rfl, rfl, rfl, by decide, rfl, rfl, by simp⟩

/-- Witness for the amended C9 at the concrete update: the extra key foo
and the other supplied fields land on the stored task. -/
theorem updateTask_merges_all_supplied_fields_witness :
    (updateTask [exTask] "a1" exBody9 "T9").resp = Resp.okTask exU9 ∧
    (∃ i old, [exTask][i]? = some old ∧
      (updateTask [exTask] "a1" exBody9 "T9").tasks = [exTask].set i exU9 ∧
      exU9.id = old.id ∧ exU9.created_at = old.created_at ∧ exU9.updated_at = "T9" ∧
      (∀ v, exBody9.description = some v → exU9.description = v) ∧
      (∀ v, exBody9.status = some v → exU9.status = v) ∧
      (∀ v, exBody9.priority = some v → exU9.priority = v) ∧
      (∀ v, exBody9.tags = some v → exU9.tags = v) ∧
      (∀ v, exBody9.assignee = some v → exU9.assignee = v) ∧
      (∀ v, exBody9.order = some v → exU9.order = v) ∧
      (∀ s, exBody9.title = some (JVal.str s) → exU9.title = JVal.str (jsTrim s)) ∧
      (∀ k w, exBody9.extra.lookup k = some w → exU9.extra.lookup k = some w)) :=
  ⟨rfl, updateTask_merges_all_supplied_fields [exTask] "a1" exBody9 "T9" exU9 rfl⟩


/-- C8: the clear-done operation removes exactly the tasks whose status is
done — every other task stays, in place and unchanged — returns the count
of removed tasks and broadcasts one task_deleted event per removed task. -/
theorem clearDone_spec (st : List Task) (nows : Nat → String) :
    (clearDoneTasks st (some "done") nows).tasks
        = st.filter (fun t => !(jvalEqStr t.status "done")) ∧
    (clearDoneTasks st (some "done") nows).resp
        = .okDeleted (st.countP (fun t => jvalEqStr t.status "done")) ∧
    (clearDoneTasks st (some "done") nows).events
        = (st.filter (fun t => jvalEqStr t.status "done")).enum.map
            (fun p => Event.task_deleted p.2 (nows p.1)) ∧
    (clearDoneTasks st (some "done") nows).events.length
        = st.countP (fun t => jvalEqStr t.status "done") ∧
    (clearDoneTasks st (some "done") nows).saves = 1 := by
  have hcount : st.length - (st.filter (fun t => !(jvalEqStr t.status "done"))).length
      = st.countP (fun t => jvalEqStr t.status "done") := by
    have h1 : (st.filter (fun t => !(jvalEqStr t.status "done"))).length
        = st.countP (fun t => !(jvalEqStr t.status "done")) :=
      Eq.symm (List.countP_eq_length_filter _ st)
    have h2 : st.length = st.countP (fun t => jvalEqStr t.status "done")
        + st.countP (fun t => ¬ jvalEqStr t.status "done") :=
      @List.length_eq_countP_add_countP _ (fun t => jvalEqStr t.status "done") st
    have h3 : st.countP (fun t => !(jvalEqStr t.status "done"))
        = st.countP (fun t => ¬ jvalEqStr t.status "done") := by simp
    omega
  unfold clearDoneTasks
  rw [if_neg (by simp)]
  refine ⟨rfl, congrArg Resp.okDeleted hcount, rfl, ?_, rfl⟩
  show ((st.filter (fun t => jvalEqStr t.status "done")).enum.map
      (fun p => Event.task_deleted p.2 (nows p.1))).length = _
  rw [List.length_map, List.enum_length]
  exact Eq.symm (List.countP_eq_length_filter _ st)


/-- Order value stored by the shared task constructor: the supplied value
unchanged, 0 only on omission. -/
theorem buildNewTask_ok_order (b : JObj) (tid tnow : String) (t : Task)
    (h : buildNewTask b tid tnow = .ok t) : t.order = b.order.getD (JVal.num 0) := by
  unfold buildNewTask at h
  split at h
  · injection h with h1
    subst h1
    rfl
  · exact Except.noConfusion h

/-- Every task the bulk loop creates comes from one element of the body
list through the shared constructor, at that element's index. -/
theorem bulkLoop_created (newIds nows : Nat → String) :
    ∀ (bodies : List JObj) (i : Nat) (t : Task), t ∈ (bulkLoop newIds nows i bodies).1 →
      ∃ j b0, bodies[j]? = some b0 ∧ buildNewTask b0 (newIds (i + j)) (nows (i + j)) = .ok t := by
  intro bodies
  induction bodies with
  | nil =>
    intro i t ht
    simp [bulkLoop] at ht
  | cons b rest ih =>
    intro i t ht
    unfold bulkLoop at ht
    rcases hv : validateTaskInput b false with u | verrs <;> rw [hv] at ht <;> dsimp only at ht
    · simp at ht
    · by_cases hlen : verrs.length > 0
      · rw [if_pos hlen] at ht
        obtain ⟨j, b0, hj, hb⟩ := ih (i + 1) t ht
        exact ⟨j + 1, b0, by simpa using hj, by
          have : i + (j + 1) = i + 1 + j := by omega
          rw [this]; exact hb⟩
      · rw [if_neg hlen] at ht
        rcases hbuild : buildNewTask b (newIds i) (nows i) with u | t0 <;> rw [hbuild] at ht <;>
          dsimp only at ht
        · simp at ht
        · rcases List.mem_cons.mp ht with h0 | hrest
          · subst h0
            exact ⟨0, b, by simp, by simpa using hbuild⟩
          · obtain ⟨j, b0, hj, hb⟩ := ih (i + 1) t hrest
            exact ⟨j + 1, b0, by simpa using hj, by
              have : i + (j + 1) = i + 1 + j := by omega
              rw [this]; exact hb⟩

/-- The collection after a bulk create is the prior collection with the
loop's created tasks appended, in every branch. -/
theorem bulkCreateTasks_tasks (st : List Task) (bodies : List JObj)
    (newIds nows : Nat → String) :
    (bulkCreateTasks st bodies newIds nows).tasks
      = st ++ (bulkLoop newIds nows 0 bodies).1 := by
  unfold bulkCreateTasks
  dsimp only
  split
  · rfl
  · split <;> rfl

/-- C10: no operation validates `order` — the validator's result does not
depend on the order field at all, and create, move and bulk create store a
supplied order value (text included) unchanged on the task, defaulting to
0 (create paths) or to the prior value (move) only on omission. -/
theorem order_never_validated (d : JObj) (v : JVal) (isUp : Bool) (st : List Task)
    (b : JObj) (pid newId now : String) (newIds nows : Nat → String)
    (bodies : List JObj) (t : Task) :
    validateTaskInput { d with order := some v } isUp = validateTaskInput d isUp ∧
    ((createTask st b newId now).resp = .okTask t →
      t.order = b.order.getD (JVal.num 0)) ∧
    ((moveTask st pid b now).resp = .okTask t →
      ∃ (i : Nat) (old : Task), st[i]? = some old ∧ t.order = b.order.getD old.order) ∧
    (∀ u ∈ (bulkCreateTasks st bodies newIds nows).tasks, u ∈ st ∨
      ∃ (j : Nat) (b0 : JObj), bodies[j]? = some b0 ∧ u.order = b0.order.getD (JVal.num 0)) := by
  refine ⟨rfl, ?_, ?_, ?_⟩
  · intro h
    obtain ⟨_, hbuild, _⟩ := createTask_ok st b newId now t h
    exact buildNewTask_ok_order b newId now t hbuild
  · intro h
    obtain ⟨i, old, hfind, hget, hu, _⟩ := moveTask_ok st pid b now t h
    exact ⟨i, old, hget, by rw [hu]⟩
  · intro u hu
    rw [bulkCreateTasks_tasks] at hu
    rcases List.mem_append.mp hu with hl | hr
    · exact Or.inl hl
    · obtain ⟨j, b0, hj, hb⟩ := bulkLoop_created newIds nows bodies 0 u hr
      exact Or.inr ⟨j, b0, hj, buildNewTask_ok_order b0 _ _ u hb⟩

/-- Body of the C10 witness create: it supplies a text order value. -/
def exBodyOrd : JObj := { title := some (JVal.str "C"), order := some (JVal.str "abc") }

/-- Task the C10 witness create stores, order text and all. -/
def exOrdTask : Task :=
  { id := "c1"
    title := JVal.str "C"
    description := JVal.str ""
    status := JVal.str "backlog"
    priority := JVal.str "medium"
    tags := JVal.arr []
    assignee := JVal.str ""
    created_at := "T3"
    updated_at := "T3"
    order := JVal.str "abc"
    extra := [] }

/-- Witness for C10: creating with the text order value abc succeeds and
stores exactly that value. -/
theorem order_never_validated_witness :
    (createTask [] exBodyOrd "c1" "T3").resp = Resp.okTask exOrdTask ∧
    exOrdTask.order = exBodyOrd.order.getD (JVal.num 0) :=
  ⟨rfl, (order_never_validated {} JVal.null false [] exBodyOrd "x" "c1" "T3"
      (fun _ => "i") (fun _ => "t") [] exOrdTask).2.1 rfl⟩


/-- A clean validation in create mode forces the title to be a present
string: otherwise the required-title message is in the list, or the
validator throws. -/
theorem validate_clean_title (b : JObj) (h : validateTaskInput b false = .ok []) :
    ∃ s, b.title = some (JVal.str s) := by
  rcases ht : b.title with _ | v
  · exfalso
    unfold validateTaskInput at h
    rw [ht] at h
    simp only [jsTruthyOpt, Bool.not_eq_true, Bool.false_eq_true, not_false_eq_true,
      and_true, if_true, List.nil_append, pure, Except.pure, Except.bind] at h
    repeat' split at h
    all_goals simp_all [Bind.bind, Except.bind, Except.instMonad, pure, Except.pure]
  · rcases v with s | n | bb | _ | xs
    · exact ⟨s, rfl⟩
    all_goals (
      exfalso
      have hthrow : validateTaskInput b false = Except.error () := by
        unfold validateTaskInput
        rw [ht]
        rfl
      rw [hthrow] at h
      exact Except.noConfusion h)

/-- The task the shared constructor builds from a body whose title is the
string `s`. -/
theorem buildNewTask_of_title (b : JObj) (tid tnow s : String)
    (h : b.title = some (JVal.str s)) :
    buildNewTask b tid tnow = .ok
      { id := tid
        title := JVal.str (jsTrim s)
        description := jsOrD b.description (JVal.str "")
        status := jsOrD b.status (JVal.str "backlog")
        priority := jsOrD b.priority (JVal.str "medium")
        tags := jsOrD b.tags (JVal.arr [])
        assignee := jsOrD b.assignee (JVal.str "")
        created_at := tnow
        updated_at := tnow
        order := b.order.getD (JVal.num 0)
        extra := [] } := by
  unfold buildNewTask
  rw [h]

/-- The tasks the bulk loop creates when started at element index `i`: one
per element passing validation cleanly, built with the fresh id and clock
reading of its index. -/
def createdFrom (newIds nows : Nat → String) (i : Nat) (bodies : List JObj) : List Task :=
  (List.enumFrom i bodies).filterMap fun p =>
    match validateTaskInput p.2 false with
    | .ok [] =>
      match buildNewTask p.2 (newIds p.1) (nows p.1) with
      | .ok t => some t
      | .error _ => none
    | _ => none

/-- The index-tagged error messages of the elements failing validation,
numbering from element index `i`. -/
def errorsFrom (i : Nat) (bodies : List JObj) : List String :=
  (List.enumFrom i bodies).filterMap fun p =>
    match validateTaskInput p.2 false with
    | .ok [] => none
    | .ok verrs => some ("Task " ++ toString p.1 ++ ": " ++ String.intercalate "; " verrs)
    | .error _ => none

/-- When no element's validation throws, the bulk loop returns exactly the
per-index created tasks and error messages, and does not abort. -/
theorem bulkLoop_no_throw (newIds nows : Nat → String) :
    ∀ (bodies : List JObj) (i : Nat),
      (∀ b ∈ bodies, (validateTaskInput b false).isOk = true) →
      bulkLoop newIds nows i bodies
        = (createdFrom newIds nows i bodies, errorsFrom i bodies, false) := by
  intro bodies
  induction bodies with
  | nil => intro i h; rfl
  | cons b rest ih =>
    intro i h
    have hb := h b (by simp)
    have hrest : ∀ b0 ∈ rest, (validateTaskInput b0 false).isOk = true :=
      fun b0 hb0 => h b0 (by simp [hb0])
    unfold bulkLoop
    unfold createdFrom errorsFrom
    rw [List.enumFrom_cons]
    rcases hv : validateTaskInput b false with u | verrs
    · rw [hv] at hb
      simp [Except.isOk, Except.toBool] at hb
    · rcases verrs with _ | ⟨e, es⟩
      · dsimp only
        rw [if_neg (by simp)]
        obtain ⟨s, hs⟩ := validate_clean_title b hv
        rcases hbuild : buildNewTask b (newIds i) (nows i) with u | t0
        · rw [buildNewTask_of_title b (newIds i) (nows i) s hs] at hbuild
          exact Except.noConfusion hbuild
        · dsimp only
          rw [ih (i + 1) hrest]
          rw [List.filterMap_cons, List.filterMap_cons]
          dsimp only
          rw [hv, hbuild]
          rfl
      · dsimp only
        rw [if_pos (by simp)]
        rw [ih (i + 1) hrest]
        rw [List.filterMap_cons, List.filterMap_cons]
        dsimp only
        rw [hv]
        rfl

/-- C3 (amended): provided every element's validation completes without
throwing (title, when present, of text type; tags, when present, a
sequence), BulkCreate validates each element independently, creates one
task per cleanly-validating element (with its index's fresh id and equal
created/updated timestamps) and produces one index-tagged error per
failing element; if no element succeeds and at least one failed, the call
fails with the joined errors and the collection is unchanged with nothing
persisted and nothing broadcast; if at least one element succeeds, the
call returns the created tasks plus the per-index errors, appends exactly
the created tasks, persists once and broadcasts one creation event per
created task. -/
theorem bulkCreate_spec (st : List Task) (bodies : List JObj) (newIds nows : Nat → String)
    (hok : ∀ b ∈ bodies, (validateTaskInput b false).isOk = true) :
    (bulkCreateTasks st bodies newIds nows).tasks
        = st ++ createdFrom newIds nows 0 bodies ∧
    (createdFrom newIds nows 0 bodies = [] ∧ errorsFrom 0 bodies ≠ [] →
      bulkCreateTasks st bodies newIds nows
        = ⟨st, 0, [], .badRequest (String.intercalate "; " (errorsFrom 0 bodies))⟩) ∧
    (createdFrom newIds nows 0 bodies ≠ [] →
      bulkCreateTasks st bodies newIds nows
        = ⟨st ++ createdFrom newIds nows 0 bodies, 1,
            (createdFrom newIds nows 0 bodies).map (fun t => .task_created t t.created_at),
            .okBulk (createdFrom newIds nows 0 bodies) (errorsFrom 0 bodies)⟩) := by
  have hloop := bulkLoop_no_throw newIds nows bodies 0 hok
  refine ⟨?_, ?_, ?_⟩
  · rw [bulkCreateTasks_tasks, hloop]
  · intro hcase
    unfold bulkCreateTasks
    rw [hloop]
    dsimp only
    rw [if_neg (by simp)]
    rw [if_pos ?side]
    case side =>
      refine ⟨?_, ?_⟩
      · have := hcase.2
        rcases herr : errorsFrom 0 bodies with _ | ⟨e, es⟩
        · exact absurd herr this
        · simp
      · rw [hcase.1]; rfl
    rw [hcase.1]
    simp
  · intro hcase
    unfold bulkCreateTasks
    rw [hloop]
    dsimp only
    rw [if_neg (by simp)]
    rw [if_neg ?side2]
    case side2 =>
      intro hcontra
      rcases hc : createdFrom newIds nows 0 bodies with _ | ⟨t, ts⟩
      · exact absurd hc hcase
      · rw [hc] at hcontra
        simp at hcontra


/-- Bulk element that validates cleanly. -/
def exBulkGood : JObj := { title := some (JVal.str "A") }

/-- Bulk element whose validation throws (numeric title). -/
def exBulkThrow : JObj := { title := some (JVal.num 42) }

/-- Bulk element that fails validation without throwing (empty title). -/
def exBulkEmptyTitle : JObj := { title := some (JVal.str "") }

/-- Fresh ids supplied to the concrete bulk runs. -/
def exIds : Nat → String := fun i => "bid" ++ toString i

/-- Clock readings supplied to the concrete bulk runs. -/
def exNows : Nat → String := fun i => "bt" ++ toString i

/-- Outcome of the bulk run whose second element throws in validation. -/
def exBulkOutBad : OpOut := bulkCreateTasks [] [exBulkGood, exBulkThrow] exIds exNows

/-- C3 counterexample: in the element list [A-titled, 42-titled], element 0
passes validation and is created in the in-memory collection, yet the call
returns a 500 — not success with the created tasks plus per-index errors —
and the grown collection is never persisted and nothing is broadcast; so
the claim fails as stated on this input. -/
theorem bulkCreate_counterexample :
    validateTaskInput exBulkGood false = Except.ok [] ∧
    exBulkOutBad.resp = Resp.serverError ∧
    exBulkOutBad.tasks.length = 1 ∧ exBulkOutBad.saves = 0 ∧ exBulkOutBad.events = [] :=
  ⟨rfl, rfl, rfl, rfl, rfl⟩

/-- Witness for the amended C3: one cleanly-valid plus one invalid (empty
title) element — every element validates without throwing, exactly the
valid one is created and appended, and the call succeeds with one
index-tagged error. -/
theorem bulkCreate_spec_witness :
    (∀ b ∈ [exBulkGood, exBulkEmptyTitle], (validateTaskInput b false).isOk = true) ∧
    ((bulkCreateTasks [] [exBulkGood, exBulkEmptyTitle] exIds exNows).tasks
        = [] ++ createdFrom exIds exNows 0 [exBulkGood, exBulkEmptyTitle] ∧
      (createdFrom exIds exNows 0 [exBulkGood, exBulkEmptyTitle] = [] ∧
          errorsFrom 0 [exBulkGood, exBulkEmptyTitle] ≠ [] →
        bulkCreateTasks [] [exBulkGood, exBulkEmptyTitle] exIds exNows
          = ⟨[], 0, [], .badRequest
              (String.intercalate "; " (errorsFrom 0 [exBulkGood, exBulkEmptyTitle]))⟩) ∧
      (createdFrom exIds exNows 0 [exBulkGood, exBulkEmptyTitle] ≠ [] →
        bulkCreateTasks [] [exBulkGood, exBulkEmptyTitle] exIds exNows
          = ⟨[] ++ createdFrom exIds exNows 0 [exBulkGood, exBulkEmptyTitle], 1,
              (createdFrom exIds exNows 0 [exBulkGood, exBulkEmptyTitle]).map
                (fun t => .task_created t t.created_at),
              .okBulk (createdFrom exIds exNows 0 [exBulkGood, exBulkEmptyTitle])
                (errorsFrom 0 [exBulkGood, exBulkEmptyTitle])⟩)) := by
  have hok : ∀ b ∈ [exBulkGood, exBulkEmptyTitle], (validateTaskInput b false).isOk = true := by
    intro b hb
    rcases List.mem_cons.mp hb with h1 | hb2
    · subst h1; rfl
    · rcases List.mem_cons.mp hb2 with h2 | hb3
      · subst h2; rfl
      · exact absurd hb3 (List.not_mem_nil b)
  exact ⟨hok, bulkCreate_spec [] [exBulkGood, exBulkEmptyTitle] exIds exNows hok⟩


/-- True exactly on numeric values. -/
def isNumVal : JVal → Bool
  | .num _ => true
  | _ => false

/-- Well-formed stored task per the spec's data model: text title and
description, status and priority inside their enumerations, numeric
order. -/
def WFTask (t : Task) : Prop :=
  isStrVal t.title = true ∧ isStrVal t.description = true ∧
  jsIncludes VALID_STATUSES t.status = true ∧ jsIncludes VALID_PRIORITIES t.priority = true ∧
  isNumVal t.order = true

instance (t : Task) : Decidable (WFTask t) := by
  unfold WFTask
  infer_instance

/-- Five status buckets with the given counter values. -/
def fiveCounts (a b c d e : Nat) : List (String × Option Nat) :=
  [("backlog", some a), ("todo", some b), ("in_progress", some c), ("review", some d),
   ("done", some e)]

/-- Four priority buckets with the given counter values. -/
def fourCounts (a b c d : Nat) : List (String × Option Nat) :=
  [("low", some a), ("medium", some b), ("high", some c), ("critical", some d)]

/-- The byStatus component of the stats fold only depends on the status
bumps. -/
theorem statsFold_byStatus (d : String) :
    ∀ (st : List Task) (acc : StatsAcc),
      (st.foldl (statsStep d) acc).byStatus
        = st.foldl (fun m t => bump m (jsStringOf t.status)) acc.byStatus := by
  intro st
  induction st with
  | nil => intro acc; rfl
  | cons t rest ih =>
    intro acc
    rw [List.foldl_cons, List.foldl_cons, ih]
    rfl

/-- The byPriority component of the stats fold only depends on the
priority bumps. -/
theorem statsFold_byPriority (d : String) :
    ∀ (st : List Task) (acc : StatsAcc),
      (st.foldl (statsStep d) acc).byPriority
        = st.foldl (fun m t => bump m (jsStringOf t.priority)) acc.byPriority := by
  intro st
  induction st with
  | nil => intro acc; rfl
  | cons t rest ih =>
    intro acc
    rw [List.foldl_cons, List.foldl_cons, ih]
    rfl

/-- The recently-completed component of the stats fold counts the done
tasks updated inside the window. -/
theorem statsFold_recent (d : String) :
    ∀ (st : List Task) (acc : StatsAcc),
      (st.foldl (statsStep d) acc).recent
        = acc.recent + st.countP (fun t => jvalEqStr t.status "done" && jsStrLe d t.updated_at) := by
  intro st
  induction st with
  | nil => intro acc; simp
  | cons t rest ih =>
    intro acc
    rw [List.foldl_cons, ih]
    rcases hp : jvalEqStr t.status "done" && jsStrLe d t.updated_at
    · simp [List.countP_cons, hp, statsStep]
    · simp [List.countP_cons, hp, statsStep]
      omega

/-- Counting the status bumps of a collection of enumerated statuses. -/
theorem statusFold (st : List Task)
    (hwf : ∀ t ∈ st, jsIncludes VALID_STATUSES t.status = true) :
    ∀ a b c d e : Nat,
      st.foldl (fun m t => bump m (jsStringOf t.status)) (fiveCounts a b c d e)
        = fiveCounts (a + st.countP (fun t => jvalEqStr t.status "backlog"))
                     (b + st.countP (fun t => jvalEqStr t.status "todo"))
                     (c + st.countP (fun t => jvalEqStr t.status "in_progress"))
                     (d + st.countP (fun t => jvalEqStr t.status "review"))
                     (e + st.countP (fun t => jvalEqStr t.status "done")) := by
  induction st with
  | nil => intro a b c d e; simp
  | cons t rest ih =>
    intro a b c d e
    have ht := hwf t (List.mem_cons_self t rest)
    have hwfr : ∀ x ∈ rest, jsIncludes VALID_STATUSES x.status = true :=
      fun x hx => hwf x (List.mem_cons_of_mem t hx)
    rw [List.foldl_cons]
    rcases hst : t.status with s | n | bb | _ | xs <;> rw [hst] at ht <;>
      simp only [jsIncludes] at ht <;> try exact Bool.noConfusion ht
    case str =>
      simp only [VALID_STATUSES, List.contains, List.elem_eq_mem, List.mem_cons,
        List.not_mem_nil, or_false, decide_eq_true_eq] at ht
      rcases ht with rfl | rfl | rfl | rfl | rfl
      · rw [show bump (fiveCounts a b c d e) (jsStringOf (JVal.str "backlog"))
            = fiveCounts (a + 1) b c d e by
          simp [bump, fiveCounts, assocSet, List.lookup, jsStringOf]]
        rw [ih hwfr (a + 1) b c d e]
        simp [fiveCounts, List.countP_cons, jvalEqStr, hst]
        omega
      · rw [show bump (fiveCounts a b c d e) (jsStringOf (JVal.str "todo"))
            = fiveCounts a (b + 1) c d e by
          simp [bump, fiveCounts, assocSet, List.lookup, jsStringOf]]
        rw [ih hwfr a (b + 1) c d e]
        simp [fiveCounts, List.countP_cons, jvalEqStr, hst]
        omega
      · rw [show bump (fiveCounts a b c d e) (jsStringOf (JVal.str "in_progress"))
            = fiveCounts a b (c + 1) d e by
          simp [bump, fiveCounts, assocSet, List.lookup, jsStringOf]]
        rw [ih hwfr a b (c + 1) d e]
        simp [fiveCounts, List.countP_cons, jvalEqStr, hst]
        omega
      · rw [show bump (fiveCounts a b c d e) (jsStringOf (JVal.str "review"))
            = fiveCounts a b c (d + 1) e by
          simp [bump, fiveCounts, assocSet, List.lookup, jsStringOf]]
        rw [ih hwfr a b c (d + 1) e]
        simp [fiveCounts, List.countP_cons, jvalEqStr, hst]
        omega
      · rw [show bump (fiveCounts a b c d e) (jsStringOf (JVal.str "done"))
            = fiveCounts a b c d (e + 1) by
          simp [bump, fiveCounts, assocSet, List.lookup, jsStringOf]]
        rw [ih hwfr a b c d (e + 1)]
        simp [fiveCounts, List.countP_cons, jvalEqStr, hst]
        omega

/-- Counting the priority bumps of a collection of enumerated priorities. -/
theorem priorityFold (st : List Task)
    (hwf : ∀ t ∈ st, jsIncludes VALID_PRIORITIES t.priority = true) :
    ∀ a b c d : Nat,
      st.foldl (fun m t => bump m (jsStringOf t.priority)) (fourCounts a b c d)
        = fourCounts (a + st.countP (fun t => jvalEqStr t.priority "low"))
                     (b + st.countP (fun t => jvalEqStr t.priority "medium"))
                     (c + st.countP (fun t => jvalEqStr t.priority "high"))
                     (d + st.countP (fun t => jvalEqStr t.priority "critical")) := by
  induction st with
  | nil => intro a b c d; simp
  | cons t rest ih =>
    intro a b c d
    have ht := hwf t (List.mem_cons_self t rest)
    have hwfr : ∀ x ∈ rest, jsIncludes VALID_PRIORITIES x.priority = true :=
      fun x hx => hwf x (List.mem_cons_of_mem t hx)
    rw [List.foldl_cons]
    rcases hst : t.priority with s | n | bb | _ | xs <;> rw [hst] at ht <;>
      simp only [jsIncludes] at ht <;> try exact Bool.noConfusion ht
    case str =>
      simp only [VALID_PRIORITIES, List.contains, List.elem_eq_mem, List.mem_cons,
        List.not_mem_nil, or_false, decide_eq_true_eq] at ht
      rcases ht with rfl | rfl | rfl | rfl
      · rw [show bump (fourCounts a b c d) (jsStringOf (JVal.str "low"))
            = fourCounts (a + 1) b c d by
          simp [bump, fourCounts, assocSet, List.lookup, jsStringOf]]
        rw [ih hwfr (a + 1) b c d]
        simp [fourCounts, List.countP_cons, jvalEqStr, hst]
        omega
      · rw [show bump (fourCounts a b c d) (jsStringOf (JVal.str "medium"))
            = fourCounts a (b + 1) c d by
          simp [bump, fourCounts, assocSet, List.lookup, jsStringOf]]
        rw [ih hwfr a (b + 1) c d]
        simp [fourCounts, List.countP_cons, jvalEqStr, hst]
        omega
      · rw [show bump (fourCounts a b c d) (jsStringOf (JVal.str "high"))
            = fourCounts a b (c + 1) d by
          simp [bump, fourCounts, assocSet, List.lookup, jsStringOf]]
        rw [ih hwfr a b (c + 1) d]
        simp [fourCounts, List.countP_cons, jvalEqStr, hst]
        omega
      · rw [show bump (fourCounts a b c d) (jsStringOf (JVal.str "critical"))
            = fourCounts a b c (d + 1) by
          simp [bump, fourCounts, assocSet, List.lookup, jsStringOf]]
        rw [ih hwfr a b c (d + 1)]
        simp [fourCounts, List.countP_cons, jvalEqStr, hst]
        omega

/-- C7: on a well-formed collection, Stats returns the total task count,
all five status buckets (zero-filled when absent), all four priority
buckets (zero-filled when absent), and recentlyCompleted counting exactly
the tasks with status done whose updated_at is at or after the window
start `oneDayAgo` (the call moment minus 24 hours, compared as ISO text) —
while changing nothing, persisting nothing and broadcasting nothing. -/
theorem getStats_spec (st : List Task) (oneDayAgo : String)
    (hwf : ∀ t ∈ st, WFTask t) :
    getStats st oneDayAgo = ⟨st, 0, [],
      .okStats ⟨st.length,
        fiveCounts (st.countP (fun t => jvalEqStr t.status "backlog"))
                   (st.countP (fun t => jvalEqStr t.status "todo"))
                   (st.countP (fun t => jvalEqStr t.status "in_progress"))
                   (st.countP (fun t => jvalEqStr t.status "review"))
                   (st.countP (fun t => jvalEqStr t.status "done")),
        fourCounts (st.countP (fun t => jvalEqStr t.priority "low"))
                   (st.countP (fun t => jvalEqStr t.priority "medium"))
                   (st.countP (fun t => jvalEqStr t.priority "high"))
                   (st.countP (fun t => jvalEqStr t.priority "critical")),
        st.countP (fun t => jvalEqStr t.status "done" && jsStrLe oneDayAgo t.updated_at)⟩⟩ := by
  have hS : ∀ t ∈ st, jsIncludes VALID_STATUSES t.status = true :=
    fun t htm => (hwf t htm).2.2.1
  have hP : ∀ t ∈ st, jsIncludes VALID_PRIORITIES t.priority = true :=
    fun t htm => (hwf t htm).2.2.2.1
  have h1 := statsFold_byStatus oneDayAgo st ⟨byStatus0, byPriority0, 0⟩
  have h2 := statsFold_byPriority oneDayAgo st ⟨byStatus0, byPriority0, 0⟩
  have h3 := statsFold_recent oneDayAgo st ⟨byStatus0, byPriority0, 0⟩
  unfold getStats
  dsimp only
  rw [OpOut.mk.injEq]
  refine ⟨rfl, rfl, rfl, ?_⟩
  rw [Resp.okStats.injEq, StatsBody.mk.injEq]
  refine ⟨rfl, ?_, ?_, ?_⟩
  · rw [h1]
    rw [show (⟨byStatus0, byPriority0, 0⟩ : StatsAcc).byStatus = fiveCounts 0 0 0 0 0 from rfl]
    rw [statusFold st hS 0 0 0 0 0]
    simp
  · rw [h2]
    rw [show (⟨byStatus0, byPriority0, 0⟩ : StatsAcc).byPriority = fourCounts 0 0 0 0 from rfl]
    rw [priorityFold st hP 0 0 0 0]
    simp
  · rw [h3]
    simp


/-- Done task updated 23 hours before the C7 witness call. -/
def exDoneRecent : Task :=
  { exTask with id := "d1", status := JVal.str "done", updated_at := "2026-10-11T13:00:00.000Z" }

/-- Done task updated 25 hours before the C7 witness call. -/
def exDoneOld : Task :=
  { exTask with id := "d2", status := JVal.str "done", updated_at := "2026-10-11T11:00:00.000Z" }

/-- Witness for C7 with the call moment 2026-10-12T12:00Z: the done task
updated 23 hours earlier is counted in recentlyCompleted, the one updated
25 hours earlier is not, and all buckets are present and zero-filled. -/
theorem getStats_spec_witness :
    (∀ t ∈ [exDoneRecent, exDoneOld, exTask], WFTask t) ∧
    getStats [exDoneRecent, exDoneOld, exTask] "2026-10-11T12:00:00.000Z"
      = ⟨[exDoneRecent, exDoneOld, exTask], 0, [],
          .okStats ⟨3, fiveCounts 0 1 0 0 2, fourCounts 0 3 0 0, 1⟩⟩ :=
  ⟨by decide, by
    rw [getStats_spec [exDoneRecent, exDoneOld, exTask] "2026-10-11T12:00:00.000Z" (by decide)]
    rfl⟩


/-- Search verdict on a task with text title and description: the lowered
search term occurs in the lowered title or the lowered description. -/
def searchBool (ql : String) (t : Task) : Bool :=
  match t.title, t.description with
  | JVal.str a, JVal.str b => containsSub (jsToLower a) ql || containsSub (jsToLower b) ql
  | _, _ => false

/-- Conjunction of the four optional filters of the list endpoint; an
inactive (absent or empty) parameter constrains nothing. -/
def matchesQuery (q : Query) (t : Task) : Bool :=
  (!qActive q.status || jvalEqStr t.status (q.status.getD "")) &&
  (!qActive q.priority || jvalEqStr t.priority (q.priority.getD "")) &&
  (!qActive q.assignee || jvalEqStr t.assignee (q.assignee.getD "")) &&
  (!qActive q.search || searchBool (jsToLower (q.search.getD "")) t)

/-- Membership in one exact-match filter stage. -/
theorem mem_applyExact (o : Option String) (proj : Task → JVal) (l : List Task) (x : Task) :
    x ∈ applyExact o proj l ↔
      x ∈ l ∧ (!qActive o || jvalEqStr (proj x) (o.getD "")) = true := by
  rcases o with _ | s
  · simp [applyExact, qActive]
  · by_cases hs : s = ""
    · subst hs
      simp [applyExact, qActive]
    · simp [applyExact, qActive, hs, List.mem_filter]

/-- The search stage of the pipeline, as the pure filter it computes on
tasks with text title and description. -/
def searchStage (q : Query) (l : List Task) : List Task :=
  match q.search with
  | none => l
  | some s => if s ≠ "" then l.filter (searchBool (jsToLower s)) else l

/-- On tasks with text title and description the throwing search filter
succeeds and computes the plain boolean filter. -/
theorem filterE_searchPred (ql : String) :
    ∀ l : List Task, (∀ t ∈ l, isStrVal t.title = true ∧ isStrVal t.description = true) →
      filterE (searchPred ql) l = Except.ok (l.filter (searchBool ql)) := by
  intro l
  induction l with
  | nil => intro h; rfl
  | cons t rest ih =>
    intro h
    obtain ⟨hti, htd⟩ := h t (List.mem_cons_self t rest)
    have hrest : ∀ x ∈ rest, isStrVal x.title = true ∧ isStrVal x.description = true :=
      fun x hx => h x (List.mem_cons_of_mem t hx)
    rcases hT : t.title with a | _ | _ | _ | _ <;> rw [hT] at hti <;>
      try exact Bool.noConfusion hti
    rcases hD : t.description with bs | _ | _ | _ | _ <;> rw [hD] at htd <;>
      try exact Bool.noConfusion htd
    have hsp : searchPred ql t = Except.ok (searchBool ql t) := by
      unfold searchPred searchBool
      rw [hT, hD]
      by_cases ha : containsSub (jsToLower a) ql = true <;>
        simp [ha, pure, Except.pure, Bind.bind, Except.bind]
    unfold filterE
    rw [hsp, ih hrest]
    simp [Bind.bind, Except.bind, pure, Except.pure, List.filter_cons]

/-- The list pipeline on a collection with text titles and descriptions:
the three exact filters, the search filter, then the sort. -/
theorem listTasks_eq (st : List Task) (q : Query)
    (hwf : ∀ t ∈ st, isStrVal t.title = true ∧ isStrVal t.description = true) :
    listTasks st q = Except.ok (jsSort (searchStage q
      (applyExact q.assignee (fun t => t.assignee)
        (applyExact q.priority (fun t => t.priority)
          (applyExact q.status (fun t => t.status) st))))) := by
  have hsub : ∀ t ∈ applyExact q.assignee (fun t => t.assignee)
      (applyExact q.priority (fun t => t.priority)
        (applyExact q.status (fun t => t.status) st)),
      isStrVal t.title = true ∧ isStrVal t.description = true := by
    intro t htm
    have h1 := ((mem_applyExact _ _ _ t).mp htm).1
    have h2 := ((mem_applyExact _ _ _ t).mp h1).1
    have h3 := ((mem_applyExact _ _ _ t).mp h2).1
    exact hwf t h3
  unfold listTasks searchStage
  rcases q.search with _ | s
  · rfl
  · dsimp only
    by_cases hs : s = ""
    · subst hs
      rfl
    · rw [if_pos hs, if_pos hs]
      rw [filterE_searchPred (jsToLower s) _ hsub]
      rfl


/-- Rank of a task in the display sort (the status lookup; unknown ranks
only arise on ill-formed statuses, excluded by the claims). -/
def rankOf (t : Task) : Int := (statusRank t.status).getD 0

/-- Numeric order of a task in the display sort. -/
def orderNumOf (t : Task) : Int := (jsToNumber t.order).getD 0

/-- The display ordering of the claim: status rank in the fixed sequence
backlog < todo < in_progress < review < done first, `order` ascending
second. -/
def displayLe (a b : Task) : Prop :=
  rankOf a < rankOf b ∨ (rankOf a = rankOf b ∧ orderNumOf a ≤ orderNumOf b)

/-- Swapping the comparator's arguments negates its result. -/
theorem sortCompare_swap (a b : Task) : sortCompare b a = - sortCompare a b := by
  unfold sortCompare jsSubNum
  rcases statusRank a.status with _ | ra <;> rcases statusRank b.status with _ | rb <;>
    simp only [Option.bind_eq_bind, Option.none_bind, Option.some_bind, Option.bind_none,
      Option.bind_some, neg_zero, Bind.bind]
  by_cases hd : ra - rb = 0
  · rw [if_neg (by omega), if_neg (by omega)]
    rcases jsToNumber a.order with _ | x <;> rcases jsToNumber b.order with _ | y <;>
      simp only [Option.bind_eq_bind, Option.none_bind, Option.some_bind, Bind.bind,
        Option.pure_def, Option.getD_none, Option.getD_some, neg_zero]
    omega
  · rw [if_pos (by omega), if_pos (by omega)]
    omega

/-- A well-formed task has a status rank and a numeric order. -/
theorem WFTask_rank (t : Task) (h : WFTask t) :
    ∃ r n : Int, statusRank t.status = some r ∧ jsToNumber t.order = some n := by
  obtain ⟨-, -, hs, -, ho⟩ := h
  rcases hor : t.order with _ | n | _ | _ | _ <;> rw [hor] at ho <;>
    try exact Bool.noConfusion ho
  rcases hst : t.status with sv | _ | _ | _ | _ <;> rw [hst] at hs <;>
    simp only [jsIncludes] at hs <;> try exact Bool.noConfusion hs
  case str =>
    simp only [VALID_STATUSES, List.contains, List.elem_eq_mem, List.mem_cons,
      List.not_mem_nil, or_false, decide_eq_true_eq] at hs
    rcases hs with rfl | rfl | rfl | rfl | rfl
    · exact ⟨0, n, rfl, rfl⟩
    · exact ⟨1, n, rfl, rfl⟩
    · exact ⟨2, n, rfl, rfl⟩
    · exact ⟨3, n, rfl, rfl⟩
    · exact ⟨4, n, rfl, rfl⟩

/-- On well-formed tasks the comparator's non-positive verdicts are the
display order. -/
theorem WF_le_iff (a b : Task) (ha : WFTask a) (hb : WFTask b) :
    sortCompare a b ≤ 0 ↔ displayLe a b := by
  obtain ⟨ra, na, hra, hna⟩ := WFTask_rank a ha
  obtain ⟨rb, nb, hrb, hnb⟩ := WFTask_rank b hb
  unfold sortCompare displayLe rankOf orderNumOf jsSubNum
  rw [hra, hrb, hna, hnb]
  simp only [Option.bind_eq_bind, Option.some_bind, Bind.bind, Option.pure_def,
    Option.getD_some]
  split_ifs with hd <;> omega

/-- Membership in an insertion. -/
theorem mem_jsInsert (x a : Task) : ∀ l : List Task, x ∈ jsInsert a l ↔ x = a ∨ x ∈ l := by
  intro l
  induction l with
  | nil => simp [jsInsert]
  | cons b rest ih =>
    unfold jsInsert
    by_cases hab : sortCompare a b ≤ 0
    · rw [if_pos hab]
      simp [List.mem_cons]
    · rw [if_neg hab]
      simp [List.mem_cons, ih]
      tauto

/-- Inserting into a comparator-sorted list keeps it sorted, given
transitivity through the inserted element on the list's members. -/
theorem pairwise_jsInsert (a : Task) :
    ∀ l : List Task, l.Pairwise (fun x y => sortCompare x y ≤ 0) →
      (∀ b ∈ l, ∀ c ∈ l, sortCompare a b ≤ 0 → sortCompare b c ≤ 0 → sortCompare a c ≤ 0) →
      (jsInsert a l).Pairwise (fun x y => sortCompare x y ≤ 0) := by
  intro l
  induction l with
  | nil =>
    intro _ _
    simp [jsInsert]
  | cons b rest ih =>
    intro hp htr
    unfold jsInsert
    by_cases hab : sortCompare a b ≤ 0
    · rw [if_pos hab]
      refine List.Pairwise.cons ?_ hp
      intro y hy
      rcases List.mem_cons.mp hy with rfl | hyr
      · exact hab
      · exact htr b (by simp) y (by simp [hyr]) hab (List.rel_of_pairwise_cons hp hyr)
    · rw [if_neg hab]
      refine List.Pairwise.cons ?_ ?_
      · intro y hy
        rcases (mem_jsInsert y a rest).mp hy with hya | hyr
        · rw [hya]
          have hsw := sortCompare_swap a b
          omega
        · exact List.rel_of_pairwise_cons hp hyr
      · exact ih (List.Pairwise.of_cons hp)
          (fun x hx c hc => htr x (by simp [hx]) c (by simp [hc]))

/-- Membership in the sorted list. -/
theorem mem_jsSort (x : Task) : ∀ l : List Task, x ∈ jsSort l ↔ x ∈ l := by
  intro l
  induction l with
  | nil => simp [jsSort]
  | cons a rest ih =>
    show x ∈ jsInsert a (jsSort rest) ↔ _
    rw [mem_jsInsert]
    simp [List.mem_cons, ih]

/-- The sort's output is pairwise comparator-ordered, given transitivity
on the input's members. -/
theorem pairwise_jsSort :
    ∀ l : List Task,
      (∀ a ∈ l, ∀ b ∈ l, ∀ c ∈ l,
        sortCompare a b ≤ 0 → sortCompare b c ≤ 0 → sortCompare a c ≤ 0) →
      (jsSort l).Pairwise (fun x y => sortCompare x y ≤ 0) := by
  intro l
  induction l with
  | nil =>
    intro _
    simp [jsSort]
  | cons a rest ih =>
    intro htr
    show (jsInsert a (jsSort rest)).Pairwise _
    refine pairwise_jsInsert a (jsSort rest)
      (ih (fun x hx y hy z hz => htr x (by simp [hx]) y (by simp [hy]) z (by simp [hz]))) ?_
    intro b hb c hc
    have hb2 : b ∈ rest := (mem_jsSort b rest).mp hb
    have hc2 : c ∈ rest := (mem_jsSort c rest).mp hc
    exact htr a (by simp) b (by simp [hb2]) c (by simp [hc2])


/-- Membership in the search stage. -/
theorem mem_searchStage (q : Query) (l : List Task) (x : Task) :
    x ∈ searchStage q l ↔
      x ∈ l ∧ (!qActive q.search || searchBool (jsToLower (q.search.getD "")) x) = true := by
  unfold searchStage
  rcases q.search with _ | s
  · simp [qActive]
  · by_cases hs : s = ""
    · subst hs
      simp [qActive]
    · simp [qActive, hs, List.mem_filter]

/-- C6: on a well-formed collection the list endpoint succeeds, leaves the
collection untouched (no stored `order` changes, nothing saved, nothing
broadcast), returns exactly the tasks satisfying the conjunction of the
supplied filters (exact status, priority and assignee matches;
case-insensitive substring search over title or description), and its
output is ordered by status rank in the fixed sequence backlog < todo <
in_progress < review < done, then by `order` ascending. -/
theorem listTasks_spec (st : List Task) (q : Query) (hwf : ∀ t ∈ st, WFTask t) :
    ∃ out, getTasksHandler st q = ⟨st, 0, [], .okList out⟩ ∧
      (∀ x, x ∈ out ↔ x ∈ st ∧ matchesQuery q x = true) ∧
      out.Pairwise displayLe := by
  have hSD : ∀ t ∈ st, isStrVal t.title = true ∧ isStrVal t.description = true :=
    fun t htm => ⟨(hwf t htm).1, (hwf t htm).2.1⟩
  refine ⟨jsSort (searchStage q
      (applyExact q.assignee (fun t => t.assignee)
        (applyExact q.priority (fun t => t.priority)
          (applyExact q.status (fun t => t.status) st)))), ?_, ?_, ?_⟩
  · unfold getTasksHandler
    rw [listTasks_eq st q hSD]
  · intro x
    rw [mem_jsSort, mem_searchStage, mem_applyExact, mem_applyExact, mem_applyExact]
    unfold matchesQuery
    simp only [Bool.and_eq_true, Bool.or_eq_true]
    tauto
  · have hmem : ∀ t ∈ searchStage q
        (applyExact q.assignee (fun t => t.assignee)
          (applyExact q.priority (fun t => t.priority)
            (applyExact q.status (fun t => t.status) st))), WFTask t := by
      intro t htm
      have h1 := ((mem_searchStage _ _ t).mp htm).1
      have h2 := ((mem_applyExact _ _ _ t).mp h1).1
      have h3 := ((mem_applyExact _ _ _ t).mp h2).1
      have h4 := ((mem_applyExact _ _ _ t).mp h3).1
      exact hwf t h4
    have hPW := pairwise_jsSort _ (fun a ha b hb c hc hab hbc => by
      have hda := (WF_le_iff a b (hmem a ha) (hmem b hb)).mp hab
      have hdb := (WF_le_iff b c (hmem b hb) (hmem c hc)).mp hbc
      refine (WF_le_iff a c (hmem a ha) (hmem c hc)).mpr ?_
      unfold displayLe at hda hdb ⊢
      omega)
    refine List.Pairwise.imp_of_mem ?_ hPW
    intro a b hma hmb hr
    exact (WF_le_iff a b (hmem a ((mem_jsSort a _).mp hma))
      (hmem b ((mem_jsSort b _).mp hmb))).mp hr

/-- Witness for C6: two well-formed tasks filtered by status todo. -/
theorem listTasks_spec_witness :
    (∀ t ∈ [exDoneRecent, exTask], WFTask t) ∧
    (∃ out, getTasksHandler [exDoneRecent, exTask] { status := some "todo" }
        = ⟨[exDoneRecent, exTask], 0, [], .okList out⟩ ∧
      (∀ x, x ∈ out ↔ x ∈ [exDoneRecent, exTask]
          ∧ matchesQuery { status := some "todo" } x = true) ∧
      out.Pairwise displayLe) :=
  ⟨by decide, listTasks_spec [exDoneRecent, exTask] { status := some "todo" } (by decide)⟩

end Kanban
